import Mathlib

/-!
Verification development for the `gradmate_prod` discovery pipeline
(`src/handlers/discover.py`): a shallow embedding of the domain resolver,
department locator, research-page finder, lab-area extractor and the
record-assembly entry point, together with theorems about the properties
the specification states for them.

External collaborators (the HTTP session, the DuckDuckGo scraper, the
Gemini / OpenAI SDKs and BeautifulSoup parsing) are modelled as an
explicit environment of oracles; the pipeline functions themselves are
translated from the Python source.  Every network-touching function also
returns the list of network operations it performed, so that statements
about "no search call" or "no network activity" can be made precise.

String operations are implemented structurally over `List Char` so that
every definition evaluates inside the kernel; each models the Python
`str` operation the source uses.
-/

namespace GradMate

/-! ## String primitives (models of Python `str` operations) -/

/-- `s.lower()` (over the code points, as Python does). -/
def sLower (s : String) : String := String.mk (s.data.map Char.toLower)

/-- `s.strip()`: whitespace removed from both ends. -/
def sTrim (s : String) : String :=
  String.mk (((s.data.dropWhile Char.isWhitespace).reverse.dropWhile
    Char.isWhitespace).reverse)

/-- `s[:n]` (character slicing). -/
def sTake (s : String) (n : Nat) : String := String.mk (s.data.take n)

/-- `s[n:]` (character slicing). -/
def sDrop (s : String) (n : Nat) : String := String.mk (s.data.drop n)

/-- `s.startswith(pat)`. -/
def sStartsWith (s pat : String) : Bool := pat.data.isPrefixOf s.data

/-- `s.endswith(pat)`. -/
def sEndsWith (s pat : String) : Bool := pat.data.isSuffixOf s.data

/-- Substring test on lists of characters: some suffix of `cs` starts with
`pat`.  Models Python's `pat in s` (which is `True` for the empty pattern). -/
def listContainsSub (cs pat : List Char) : Bool :=
  match cs with
  | [] => pat.isEmpty
  | _ :: rest => pat.isPrefixOf cs || listContainsSub rest pat

/-- Substring test on strings; models Python's `pat in s`. -/
def containsSub (s pat : String) : Bool :=
  listContainsSub s.data pat.data

/-- Split a character list at every character satisfying `p`, keeping
empty segments, as Python's `str.split(sep)` / `re.split` do. -/
def splitPredAux (p : Char → Bool) : List Char → List Char → List (List Char)
  | [], acc => [acc.reverse]
  | c :: rest, acc =>
    if p c then acc.reverse :: splitPredAux p rest []
    else splitPredAux p rest (c :: acc)

/-- String split on a character predicate, keeping empty segments. -/
def sSplitPred (s : String) (p : Char → Bool) : List String :=
  (splitPredAux p s.data []).map String.mk

/-- Python `str.split()` with no argument: split on runs of whitespace and
drop empty pieces. -/
def pySplit (s : String) : List String :=
  (sSplitPred s Char.isWhitespace).filter (fun t => t ≠ "")

/-- Remove every (non-overlapping, left-to-right) occurrence of the
non-empty pattern `pat`; the fuel is the input length.  Models
`s.replace(pat, "")`. -/
def removeAllAux (pat : List Char) : Nat → List Char → List Char
  | 0, cs => cs
  | _ + 1, [] => []
  | fuel + 1, c :: rest =>
    if pat.isPrefixOf (c :: rest) then
      removeAllAux pat fuel ((c :: rest).drop pat.length)
    else c :: removeAllAux pat fuel rest

/-- `s.replace(pat, "")` for a non-empty `pat`. -/
def sRemoveAll (s pat : String) : String :=
  String.mk (removeAllAux pat.data s.data.length s.data)

/-- `sep.join(parts)`. -/
def joinSep (sep : String) : List String → String
  | [] => ""
  | [x] => x
  | x :: xs => x ++ sep ++ joinSep sep xs

/-- Concatenation of a list of strings (`"".join`). -/
def joinAll : List String → String
  | [] => ""
  | x :: xs => x ++ joinAll xs

/-! ## URL helpers (models of `urllib.parse` used by the source)

These model `urlparse`'s `netloc`/`path` fields and `urljoin` for the
absolute `http`/`https` URLs the pipeline manipulates. -/

/-- Network-location part of a URL: the text between the `//` that follows
the `http`/`https` scheme (or leads the string) and the next `/`, `?` or
`#`.  Strings with no such prefix have an empty netloc, as in `urlparse`. -/
def netlocOf (url : String) : String :=
  let rest :=
    if sStartsWith url "http://" then url.data.drop 7
    else if sStartsWith url "https://" then url.data.drop 8
    else if sStartsWith url "//" then url.data.drop 2
    else []
  String.mk (rest.takeWhile (fun c => c ≠ '/' && c ≠ '?' && c ≠ '#'))

/-- Path part of a URL, as `urlparse(url).path`: what follows the netloc
(when the URL carries one) up to the query or fragment. -/
def urlpathOf (url : String) : String :=
  let hasNet := sStartsWith url "http://" || sStartsWith url "https://" ||
    sStartsWith url "//"
  let rest :=
    if sStartsWith url "http://" then url.data.drop 7
    else if sStartsWith url "https://" then url.data.drop 8
    else if sStartsWith url "//" then url.data.drop 2
    else url.data
  let rest2 :=
    if hasNet then rest.dropWhile (fun c => c ≠ '/' && c ≠ '?' && c ≠ '#')
    else rest
  String.mk (rest2.takeWhile (fun c => c ≠ '?' && c ≠ '#'))

/-- Number of non-empty `/`-separated segments of a path: the depth measure
`len([seg for seg in p.path.split("/") if seg])` of `score_links`. -/
def pathDepth (path : String) : Nat :=
  ((sSplitPred path (fun c => c = '/')).filter (fun seg => seg ≠ "")).length

/-- Scheme-plus-netloc prefix of an absolute URL. -/
def schemeNetloc (url : String) : String :=
  if sStartsWith url "https://" then "https://" ++ netlocOf url
  else if sStartsWith url "http://" then "http://" ++ netlocOf url
  else netlocOf url

/-- Directory part of a path: everything up to and including the last `/`
(empty when the path has no `/`). -/
def dirOf (path : String) : String :=
  String.mk (path.data.reverse.dropWhile (fun c => c ≠ '/')).reverse

/-- Model of `urllib.parse.urljoin(base, rel)` for the URL shapes the
pipeline produces: absolute references and scheme-carrying references are
kept, `//`-references adopt the base scheme, rooted references replace the
path, fragments are appended, and other relative references resolve
against the base path's directory. -/
def urljoin (base rel : String) : String :=
  if rel = "" then base
  else if sStartsWith rel "http://" || sStartsWith rel "https://" then rel
  else if sStartsWith rel "mailto:" || sStartsWith rel "javascript:" then rel
  else if sStartsWith rel "//" then
    (if sStartsWith base "https://" then "https:" else "http:") ++ rel
  else if sStartsWith rel "#" then
    (String.mk (base.data.takeWhile (fun c => c ≠ '#'))) ++ rel
  else if sStartsWith rel "/" then schemeNetloc base ++ rel
  else schemeNetloc base ++ dirOf (urlpathOf base) ++ rel

/-! ## Network-operation traces -/

/-- One observable network interaction of the pipeline.  `probe` is the
liveness GET of `_domain_live`, `search` a DuckDuckGo query, `llm` one
Gemini/OpenAI completion call, `headReq` a HEAD request and `getReq` a
page fetch. -/
inductive NetOp where
  | probe (domain : String)
  | search (query : String)
  | llm
  | headReq (url : String)
  | getReq (url : String)
deriving DecidableEq, Repr

/-- Whether a network operation is a search-engine call. -/
def NetOp.isSearch : NetOp → Bool
  | .search _ => true
  | _ => false

/-- Whether a network operation is an LLM completion call. -/
def NetOp.isLLM : NetOp → Bool
  | .llm => true
  | _ => false

/-! ## Association-list helpers (models of Python `dict`) -/

/-- Python `d[k] = v`: update the value in place when the key exists,
append a new entry otherwise (dicts preserve insertion order). -/
def assocSet {α β : Type} [DecidableEq α] : List (α × β) → α → β → List (α × β)
  | [], k, v => [(k, v)]
  | (k0, v0) :: rest, k, v =>
    if k0 = k then (k0, v) :: rest else (k0, v0) :: assocSet rest k v

/-- Python `d.get(k, dflt)` on an association list. -/
def assocGet {α β : Type} [DecidableEq α] (m : List (α × β)) (k : α) (dflt : β) : β :=
  match m with
  | [] => dflt
  | (k0, v0) :: rest => if k0 = k then v0 else assocGet rest k dflt

/-- Key lookup on a string table (Python `k in d … d[k]`). -/
def lookupStr (m : List (String × String)) (k : String) : Option String :=
  match m with
  | [] => none
  | (k0, v0) :: rest => if k0 = k then some v0 else lookupStr rest k

/-- Python `scores[full] = scores.get(full, 0) + score` of `score_links`. -/
def addScore {α : Type} [DecidableEq α] : List (α × Nat) → α → Nat → List (α × Nat)
  | [], k, v => [(k, v)]
  | (k0, v0) :: rest, k, v =>
    if k0 = k then (k0, v0 + v) :: rest else (k0, v0) :: addScore rest k v

/-! ## Regular-expression models

The source uses a handful of fixed regular expressions; each is modelled
by a direct scanner with the same matching semantics on the inputs the
pipeline feeds it. -/

/-- Model of `_RESEARCH_WORDS = re.compile(r"research|labs?|groups?", re.I)`
used via `re.search`: the lowercased text contains `research`, `lab` or
`group` (the optional `s` adds no further strings). -/
def researchWords (s : String) : Bool :=
  containsSub (sLower s) "research" || containsSub (sLower s) "lab" ||
    containsSub (sLower s) "group"

/-- ASCII uppercase test (`[A-Z]` in the source's regexes). -/
def isUpperAZ (c : Char) : Bool := 'A' ≤ c && c ≤ 'Z'

/-- ASCII lowercase test (`[a-z]` in the source's regexes). -/
def isLowerAZ (c : Char) : Bool := 'a' ≤ c && c ≤ 'z'

/-- Word-character test for `\b` boundaries (`\w`): alphanumeric or `_`. -/
def isWordChar (c : Char) : Bool := c.isAlphanum || c = '_'

/-- Match `[A-Z][a-z]+` at the head of `cs`; return the matched characters
and the remainder.  The `[a-z]+` run is maximal, which is what the regex
engine commits to because every later token starts with a non-lowercase
character. -/
def takeCapWord (cs : List Char) : Option (List Char × List Char) :=
  match cs with
  | [] => none
  | c :: rest =>
    if isUpperAZ c then
      let lows := rest.takeWhile isLowerAZ
      if lows.isEmpty then none
      else some (c :: lows, rest.drop lows.length)
    else none

/-- Match `\s+[A-Z][a-z]+\b` at the head of `cs` (the trailing token of
`PROF_NAME_RE`): whitespace, a capitalised word, then a non-word character
or the end of the text. -/
def takeNameTail (cs : List Char) : Option (List Char × List Char) :=
  let ws := cs.takeWhile Char.isWhitespace
  if ws.isEmpty then none
  else
    match takeCapWord (cs.drop ws.length) with
    | none => none
    | some (w, rest) =>
      match rest with
      | [] => some (ws ++ w, [])
      | c :: _ => if isWordChar c then none else some (ws ++ w, rest)

/-- Match `\s+[A-Z]\.` at the head of `cs` (the optional middle initial of
`PROF_NAME_RE`). -/
def takeMiddleInitial (cs : List Char) : Option (List Char × List Char) :=
  let ws := cs.takeWhile Char.isWhitespace
  if ws.isEmpty then none
  else
    match cs.drop ws.length with
    | c :: '.' :: rest => if isUpperAZ c then some (ws ++ [c, '.'], rest) else none
    | _ => none

/-- Match the body of
`PROF_NAME_RE = r"\b([A-Z][a-z]+(?:\s+[A-Z]\.)?\s+[A-Z][a-z]+)\b"`
starting exactly at `cs` (the leading `\b` is checked by the caller).
The optional middle-initial group is tried first, as the engine does. -/
def profNameAt (cs : List Char) : Option (List Char) :=
  match takeCapWord cs with
  | none => none
  | some (first, rest) =>
    let withMid : Option (List Char) :=
      match takeMiddleInitial rest with
      | none => none
      | some (mid, rest2) =>
        match takeNameTail rest2 with
        | none => none
        | some (tl, _) => some (first ++ mid ++ tl)
    match withMid with
    | some m => some m
    | none =>
      match takeNameTail rest with
      | none => none
      | some (tl, _) => some (first ++ tl)

/-- Scan for the first match of `PROF_NAME_RE`, left to right; `prev`
records whether the previous character was a word character (for the
leading `\b`). -/
def profNameSearchAux : Bool → List Char → Option (List Char)
  | _, [] => none
  | prev, c :: rest =>
    match if prev then none else profNameAt (c :: rest) with
    | some m => some m
    | none => profNameSearchAux (isWordChar c) rest

/-- Model of `PROF_NAME_RE.search(s)` returning `group(1)`. -/
def profNameSearch (s : String) : Option String :=
  (profNameSearchAux false s.data).map String.mk

/-- Case-insensitive literal prefix test on character lists. -/
def lcPrefix (cs : List Char) (pat : List Char) : Bool :=
  (cs.take pat.length).map Char.toLower == pat

/-- Backtracking helper of the faculty regex: when `[:\s]+` consumed the
whole remaining text, give back separators from the right (preferring the
longest consumed prefix) until the capture `.+` can start with a
non-newline character. -/
def facBacktrack : List Char → Option (List Char)
  | [] => none
  | _ :: rest =>
    match facBacktrack rest with
    | some m => some m
    | none =>
      match rest with
      | [] => none
      | c :: _ =>
        if c ≠ '\n' then some (rest.takeWhile (fun x => x ≠ '\n')) else none

/-- After an alternation hit of the faculty regex, match `[:\s]+(.+)`:
one or more separators, then the capture up to the end of the line. -/
def facCaptureAfterSeps (rest : List Char) : Option (List Char) :=
  let seps := rest.takeWhile (fun c => c = ':' || c.isWhitespace)
  if seps.isEmpty then none
  else
    let after := rest.drop seps.length
    if ¬ after.isEmpty then some (after.takeWhile (fun c => c ≠ '\n'))
    else facBacktrack seps

/-- Match `(?:Faculty|Professors?)[:\s]+(.+)` (case-insensitively) starting
exactly at `cs`, returning the capture. -/
def facultyAt (cs : List Char) : Option (List Char) :=
  if lcPrefix cs "faculty".data then facCaptureAfterSeps (cs.drop 7)
  else if lcPrefix cs "professors".data then
    match facCaptureAfterSeps (cs.drop 10) with
    | some m => some m
    | none => facCaptureAfterSeps (cs.drop 9)
  else if lcPrefix cs "professor".data then facCaptureAfterSeps (cs.drop 9)
  else none

/-- Scan for the first match of the inline faculty pattern. -/
def facultySearchAux : List Char → Option (List Char)
  | [] => none
  | c :: rest =>
    match facultyAt (c :: rest) with
    | some m => some m
    | none => facultySearchAux rest

/-- Model of `re.search(r"(?:Faculty|Professors?)[:\s]+(.+)", s, re.I)`
followed by `[p.strip() for p in re.split(r",|;", m.group(1)) if p.strip()]`:
the inline faculty list split out of a heading or body text. -/
def facultySplit (s : String) : Option (List String) :=
  (facultySearchAux s.data).map fun cap =>
    (((sSplitPred (String.mk cap) (fun c => c = ',' || c = ';')).map sTrim).filter
      (fun p => p ≠ ""))

/-- Match `https?://[\w./\-_%]+` starting exactly at `cs`. -/
def urlTokenAt (cs : List Char) : Option (List Char) :=
  let tryScheme (scheme : List Char) : Option (List Char) :=
    if scheme.isPrefixOf cs then
      let rest := cs.drop scheme.length
      let body := rest.takeWhile (fun c => c.isAlphanum || c = '_' || c = '.' ||
        c = '/' || c = '-' || c = '%')
      if body.isEmpty then none else some (scheme ++ body)
    else none
  match tryScheme "https://".data with
  | some m => some m
  | none => tryScheme "http://".data

/-- Scan for the first match of `https?://[\w./\-_%]+`. -/
def firstUrlAux : List Char → Option (List Char)
  | [] => none
  | c :: rest =>
    match urlTokenAt (c :: rest) with
    | some m => some m
    | none => firstUrlAux rest

/-- Model of `re.search(r"https?://[\w./\-_%]+", text)` returning
`group(0)`: the first URL embedded in an LLM answer. -/
def firstUrl (s : String) : Option String :=
  (firstUrlAux s.data).map String.mk

/-- Helper of the heading regex: skip `[^>]*` up to the first `>` and test
whether `word` occurs in the following text run before the next `<`. -/
def afterTagHasWord (word : List Char) : List Char → Bool
  | [] => false
  | '>' :: rest => listContainsSub (rest.takeWhile (fun c => c ≠ '<')) word
  | _ :: rest => afterTagHasWord word rest

/-- Model of the heading regexes of `is_research_page`:
`re.search(r"<h[1-4][^>]*>[^<]*WORD", html, re.I)` tested at one position.
Because `[^>]*` cannot cross a `>`, the closing bracket matched is the
first `>` after the tag name, and the `[^<]*WORD` part succeeds exactly
when `WORD` occurs in the text run before the next `<`. -/
def headingWordAt (cs : List Char) (word : List Char) : Bool :=
  match cs with
  | '<' :: 'h' :: d :: rest =>
    (d = '1' || d = '2' || d = '3' || d = '4') && afterTagHasWord word rest
  | _ => false

/-- Scan the whole (lowercased) document for a heading whose leading text
run contains `word`. -/
def headingWordSearch : List Char → List Char → Bool
  | [], _ => false
  | c :: rest, word => headingWordAt (c :: rest) word || headingWordSearch rest word

/-- `is_research_page`'s body once the HTML has been fetched. -/
def htmlLooksLikeResearch (html : String) : Bool :=
  headingWordSearch (sLower html).data "research".data ||
    headingWordSearch (sLower html).data "lab".data ||
    headingWordSearch (sLower html).data "group".data

/-! ## Parsed-page view used by the extractor

`_extract_lab_areas` and `score_links` consume a BeautifulSoup document.
The parsing library is a collaborator; the embedding models the parsed
view the extractor reads: for each `h2`–`h4` heading, the data its loop
body queries, and for `score_links`, the anchor list of the page. -/

/-- One `<a>` element: `text` is `a.get_text(...)`, `href` is
`a.get('href', '')`. -/
structure LinkAnchor where
  text : String
  href : String
deriving DecidableEq, Repr

/-- One element of the `h.next_elements` walk after a heading.
`strEl` is a bare text node (skipped by the loop); `tagEl` carries the
tag name, `el.get_text(" ", strip=True)`, and the first `a[href]` inside
the element (`el.find('a', href=True)`). -/
inductive BodyEl where
  | strEl (s : String)
  | tagEl (tag : String) (txt : String) (anchor : Option LinkAnchor)
deriving DecidableEq, Repr

/-- The data `_extract_lab_areas` reads for one `h2`–`h4` heading:
its stripped text, the three anchor-resolution candidates
(`h.find_parent('a', href=True)`, `h.find('a', href=True)`,
`h.find_next('a', href=True)`), the anchors of an enclosing
`views-row` container when there is one, the `next_elements`
sequence, and `h.find_next(string=True)`. -/
structure Heading where
  title : String
  parentAnchorHref : Option String
  innerAnchorHref : Option String
  nextAnchorHref : Option String
  rowAnchors : Option (List LinkAnchor)
  body : List BodyEl
  nextTextNode : Option String
deriving DecidableEq, Repr

/-- A parsed research page: the `soup.find_all(["h2","h3","h4"])` result. -/
structure Page where
  headings : List Heading
deriving DecidableEq, Repr

/-! ## The environment of external collaborators -/

/-- Oracles for every external effect the pipeline performs.  `live` is the
outcome of `_domain_live`'s GET, `searchHits` the hrefs scraped from a
DuckDuckGo query, `openaiKey`/`openaiResp` the OpenAI domain fallback
(`none` response = the call raised), `geminiEnabled`/`geminiKey`/
`geminiText` the Gemini research-URL call, `now` the clock, `head` a HEAD
request's status and redirect-resolved final URL (`none` = the request
raised), `fetchPage` a GET returning the HTML text (`none` = it raised),
`anchors` the `find_all("a", href=True)` view of a URL's HTML (anchor text
taken with `get_text(" ")`), `page` the parsed heading view of a URL's
HTML (`none` = the fetch raised), and `scrapePersonnel` /
`geminiProfessors` the results and network traces of
`_scrape_personnel_section` and `_gemini_extract_professors`. -/
structure Env where
  live : String → Bool
  searchHits : String → List String
  openaiKey : Bool
  openaiResp : Option String
  geminiEnabled : Bool
  geminiKey : Bool
  geminiText : Option String
  now : Nat
  head : String → Option (Nat × String)
  fetchPage : String → Option String
  anchors : String → List LinkAnchor
  page : String → Option Page
  scrapePersonnel : String → (List String × List (String × String) × List (String × String)) × List NetOp
  geminiProfessors : String → String → (List String × List (String × String)) × List NetOp

/-! ## The Gemini suggestion cache (`_GEMINI_CACHE`) -/

/-- The process-wide cache `_GEMINI_CACHE`: key
`(college.strip().lower(), major.strip().lower())`, value
`(url-or-None, timestamp)`. -/
abbrev GeminiState : Type := List ((String × String) × (Option String × Nat))

/-- Default TTL `_GEMINI_CACHE_TTL` (seconds): 21600 unless overridden. -/
def geminiCacheTTL : Nat := 21600

/-- Model of `_gemini_suggest_research_url(college, major, root_domain)`
acting on the cache state.  Translated from the source: when Gemini is
disabled or unconfigured nothing happens; otherwise one `generate_content`
call is made, the first URL is extracted from the answer, a URL on the
wrong domain or an answer with no URL returns `None` without touching the
cache, a URL containing a research/labs/groups token is cached and
returned, and any other outcome (including an exception) caches a negative
entry.  Note that the function never *reads* the cache. -/
def geminiSuggestResearchUrl (env : Env) (college major : String)
    (rootDomain : Option String) (st : GeminiState) :
    (Option String × GeminiState) × List NetOp :=
  if ¬ env.geminiEnabled then ((none, st), [])
  else if ¬ env.geminiKey then ((none, st), [])
  else
    let key := (sLower (sTrim college), sLower (sTrim major))
    match env.geminiText with
    | none =>
      -- generate_content raised: cache a negative result
      ((none, assocSet st key (none, env.now)), [NetOp.llm])
    | some raw =>
      let text := sTrim raw
      match firstUrl text with
      | none => ((none, st), [NetOp.llm])
      | some url =>
        if (match rootDomain with
            | some rd => rd ≠ "" && ¬ containsSub url rd
            | none => false) then
          ((none, st), [NetOp.llm])
        else if containsSub (sLower url) "research" ||
            containsSub (sLower url) "labs" ||
            containsSub (sLower url) "groups" then
          ((some url, assocSet st key (some url, env.now)), [NetOp.llm])
        else
          ((none, assocSet st key (none, env.now)), [NetOp.llm])

/-! ## Step 1 – `get_root_domain` -/

/-- The `known_domains` quick-override table. -/
def knownDomains : List (String × String) :=
  [("georgia institute of technology", "gatech.edu"),
   ("georgia tech", "gatech.edu"),
   ("massachusetts institute of technology", "mit.edu"),
   ("california institute of technology", "caltech.edu"),
   ("illinois institute of technology", "iit.edu")]

/-- The three search queries `get_root_domain` tries. -/
def domainSearchQueries (college : String) : List String :=
  [college ++ " official website",
   college ++ " .edu domain",
   college ++ " university website"]

/-- The inner hit loop of the search strategy: skip empty hrefs, take the
first hit whose host ends in `.edu` and is live (probing only such
hosts, by short-circuit). -/
def findEduHit (env : Env) : List String → Option String × List NetOp
  | [] => (none, [])
  | url :: rest =>
    if url = "" then findEduHit env rest
    else
      let host := netlocOf url
      if sEndsWith host ".edu" then
        if env.live host then (some host, [NetOp.probe host])
        else
          let (r, t) := findEduHit env rest
          (r, NetOp.probe host :: t)
      else findEduHit env rest

/-- The outer query loop of the search strategy. -/
def domainSearchLoop (env : Env) : List String → Option String × List NetOp
  | [] => (none, [])
  | q :: rest =>
    match findEduHit env (env.searchHits q) with
    | (some host, t) => (some host, NetOp.search q :: t)
    | (none, t) =>
      let (r, t2) := domainSearchLoop env rest
      (r, NetOp.search q :: (t ++ t2))

/-- Stop words dropped by `_guess_domain_from_tokens`. -/
def guessStopWords : List String := ["of", "the", "at", "for", "and", "in"]

/-- `re.sub(r"[^a-zA-Z ]", " ", college)`: keep ASCII letters and spaces. -/
def sanitizeAlpha (s : String) : String :=
  String.mk (s.data.map (fun c => if isUpperAZ c || isLowerAZ c || c = ' ' then c else ' '))

/-- The token list of `_guess_domain_from_tokens`:
`[t.lower() for t in re.sub(...).split() if t.lower() not in STOP]`. -/
def guessTokens (college : String) : List String :=
  ((pySplit (sanitizeAlpha college)).map sLower).filter
    (fun t => t ∉ guessStopWords)

/-- Probe a candidate-domain list, returning the first live one. -/
def probeLoop (env : Env) : List String → Option String × List NetOp
  | [] => (none, [])
  | dom :: rest =>
    if env.live dom then (some dom, [NetOp.probe dom])
    else
      let (r, t) := probeLoop env rest
      (r, NetOp.probe dom :: t)

/-- `_guess_domain_from_tokens(college)`: abbreviation-based candidate
domains, preceded by the literal input when it is short and space-free. -/
def guessDomainFromTokens (env : Env) (college : String) : Option String × List NetOp :=
  let tokens := guessTokens college
  if tokens.isEmpty then (none, [])
  else
    let abbr := joinAll (tokens.map (fun t => sTake t 1))
    let lastTok := tokens.getLastD ""
    let cands := [abbr ++ ".edu",
                  abbr ++ sTake lastTok 1 ++ ".edu",
                  abbr ++ "a.edu",
                  abbr ++ "u.edu",
                  lastTok ++ ".edu"]
    let cands :=
      if college.length ≤ 5 && ¬ college.data.contains ' ' then
        (sLower college ++ ".edu") :: cands
      else cands
    probeLoop env cands

/-- The final OpenAI fallback of `get_root_domain`: with a key configured,
one completion call; its stripped, lowercased answer is accepted only when
it ends in `.edu` and is live.  Exceptions (modelled as a `none` response)
are swallowed. -/
def llmDomainStep (env : Env) : Option String × List NetOp :=
  if ¬ env.openaiKey then (none, [])
  else
    match env.openaiResp with
    | none => (none, [NetOp.llm])
    | some content =>
      let dom := sLower (sTrim content)
      if sEndsWith dom ".edu" then
        if env.live dom then (some dom, [NetOp.llm, NetOp.probe dom])
        else (none, [NetOp.llm, NetOp.probe dom])
      else (none, [NetOp.llm])

/-- The strategies of `get_root_domain` after the known-alias check:
search, token-abbreviation guess, LLM fallback, then failure. -/
def resolveAfterAlias (env : Env) (college : String) :
    Except String String × List NetOp :=
  match domainSearchLoop env (domainSearchQueries college) with
  | (some host, t1) => (Except.ok host, t1)
  | (none, t1) =>
    match guessDomainFromTokens env college with
    | (some dom, t2) => (Except.ok dom, t1 ++ t2)
    | (none, t2) =>
      match llmDomainStep env with
      | (some dom, t3) => (Except.ok dom, t1 ++ (t2 ++ t3))
      | (none, t3) =>
        (Except.error ("Could not resolve root domain for " ++ college),
         t1 ++ (t2 ++ t3))

/-- `get_root_domain(college)`: known-alias lookup on the
case/whitespace-normalised name (returned only when live, falling through
otherwise), then the search / guess / LLM chain; `RuntimeError` when all
fail. -/
def getRootDomain (env : Env) (college : String) :
    Except String String × List NetOp :=
  match lookupStr knownDomains (sLower (sTrim college)) with
  | some dom =>
    if env.live dom then (Except.ok dom, [NetOp.probe dom])
    else
      let (r, t) := resolveAfterAlias env college
      (r, NetOp.probe dom :: t)
  | none => resolveAfterAlias env college

/-! ## Step 2 – `get_department_url` -/

/-- The fixed list of conventional department URL patterns (used both by
`get_department_url` and, verbatim, by `find_research_url`). -/
def deptPatterns (root : String) : List String :=
  ["https://www.cs." ++ root,
   "https://cs." ++ root,
   "https://www." ++ root ++ "/cs",
   "https://" ++ root ++ "/cs",
   "https://scs." ++ root,
   "https://www.scs." ++ root,
   "https://www." ++ root ++ "/computer-science",
   "https://" ++ root ++ "/computer-science"]

/-- Probe a URL list with HEAD requests following redirects; return the
first resolved final URL whose status is below 400.  Request exceptions
are swallowed and the loop continues. -/
def headProbeLoop (env : Env) : List String → Option String × List NetOp
  | [] => (none, [])
  | p :: rest =>
    match env.head p with
    | some (status, finalUrl) =>
      if status < 400 then (some finalUrl, [NetOp.headReq p])
      else
        let (r, t) := headProbeLoop env rest
        (r, NetOp.headReq p :: t)
    | none =>
      let (r, t) := headProbeLoop env rest
      (r, NetOp.headReq p :: t)

/-- The search queries of `get_department_url`'s fallback. -/
def deptQueries (root major : String) : List String :=
  ["\"" ++ major ++ "\" department " ++ root,
   "\"" ++ major ++ "\" school " ++ root,
   "computer science " ++ root,
   "cs department " ++ root]

/-- The hit filter of the department search: keep the first non-empty hit
containing the root domain whose lowercased path contains a
computing-related token. -/
def deptHitScan (root : String) : List String → Option String
  | [] => none
  | url :: rest =>
    if url = "" || ¬ containsSub url root then deptHitScan root rest
    else
      let path := sLower (urlpathOf url)
      if containsSub path "cs" || containsSub path "computer" ||
          containsSub path "computing" then some url
      else deptHitScan root rest

/-- The query loop of the department search fallback. -/
def deptSearchLoop (env : Env) (root : String) : List String → Option String × List NetOp
  | [] => (none, [])
  | q :: rest =>
    match deptHitScan root (env.searchHits q) with
    | some u => (some u, [NetOp.search q])
    | none =>
      let (r, t) := deptSearchLoop env root rest
      (r, NetOp.search q :: t)

/-- `get_department_url(root_domain, major)`: conventional patterns via
HEAD, then search; `RuntimeError` when both are exhausted. -/
def getDepartmentUrl (env : Env) (root major : String) :
    Except String String × List NetOp :=
  match headProbeLoop env (deptPatterns root) with
  | (some d, t) => (Except.ok d, t)
  | (none, t) =>
    match deptSearchLoop env root (deptQueries root major) with
    | (some u, t2) => (Except.ok u, t ++ t2)
    | (none, t2) =>
      (Except.error ("Department page not found for " ++ root ++ " " ++ major),
       t ++ t2)

/-! ## Step 3 – `score_links` -/

/-- The per-anchor accumulation of `score_links`: join the (stripped) href
against the base, keep same-host links of path depth at most 3, and add
2 points for a research-keyword path plus 1 point for research-keyword
anchor text into the URL's dictionary slot. -/
def scoreStep (baseUrl : String) (m : List (String × Nat)) (a : LinkAnchor) :
    List (String × Nat) :=
  let href := sTrim a.href
  let full := urljoin baseUrl href
  if netlocOf full ≠ netlocOf baseUrl then m
  else if 3 < pathDepth (urlpathOf full) then m
  else
    let score := (if researchWords (urlpathOf full) then 2 else 0) +
      (if researchWords a.text then 1 else 0)
    addScore m full score

/-- The final score dictionary of `score_links` over a page's anchors. -/
def scoreTable (baseUrl : String) (anchors : List LinkAnchor) : List (String × Nat) :=
  anchors.foldl (scoreStep baseUrl) []

/-- Stable insertion into a non-increasing list, modelling Python's stable
`sorted(..., reverse=True)`: an element passes only over entries with a
strictly greater score, so earlier entries keep their place among equal
scores. -/
def insertDesc (x : String × Nat) : List (String × Nat) → List (String × Nat)
  | [] => [x]
  | y :: ys => if y.2 ≤ x.2 then x :: y :: ys else y :: insertDesc x ys

/-- Stable descending sort by score. -/
def sortDesc : List (String × Nat) → List (String × Nat)
  | [] => []
  | x :: xs => insertDesc x (sortDesc xs)

/-- `score_links(base_url, html, top_n)` over the anchor view of the HTML:
the top `top_n` URLs ranked by descending score. -/
def scoreLinks (baseUrl : String) (anchors : List LinkAnchor) (topN : Nat) :
    List String :=
  ((sortDesc (scoreTable baseUrl anchors)).take topN).map (fun kv => kv.1)

/-! ## Step 4 – `is_research_page` and `find_research_url` -/

/-- `is_research_page(url)`: fetch the page and look for an `h1`–`h4`
heading whose text mentions research, lab or group; any exception yields
`False`. -/
def isResearchPage (env : Env) (url : String) : Bool × List NetOp :=
  match env.fetchPage url with
  | none => (false, [NetOp.getReq url])
  | some html => (htmlLooksLikeResearch html, [NetOp.getReq url])

/-- The fixed research-path suffixes probed off the department URL. -/
def researchPatterns (deptUrl : String) : List String :=
  [deptUrl ++ "/research", deptUrl ++ "/research/",
   deptUrl ++ "/labs", deptUrl ++ "/labs/",
   deptUrl ++ "/groups", deptUrl ++ "/groups/",
   deptUrl ++ "/groups-labs", deptUrl ++ "/groups-labs/"]

/-- Try a list of candidate URLs with `is_research_page`, returning the
first accepted one. -/
def researchCandidateLoop (env : Env) : List String → Option String × List NetOp
  | [] => (none, [])
  | p :: rest =>
    match isResearchPage env p with
    | (true, t) => (some p, t)
    | (false, t) =>
      let (r, t2) := researchCandidateLoop env rest
      (r, t ++ t2)

/-- The department-URL resolution inside `find_research_url`: the pattern
probe of steps 3–4 and, when no pattern works, `get_department_url`. -/
def deptResolve (env : Env) (root major : String) :
    Except String String × List NetOp :=
  match headProbeLoop env (deptPatterns root) with
  | (some d, t) => (Except.ok d, t)
  | (none, t) =>
    let (r, t2) := getDepartmentUrl env root major
    (r, t ++ t2)

/-- Steps 5–8 of `find_research_url` once the department URL is known:
fetch its HTML (a fetch failure propagates), probe the fixed research
suffixes, fall back to link scoring, and finally return the department URL
itself. -/
def researchFromDept (env : Env) (deptUrl : String) :
    Except String String × List NetOp :=
  match env.fetchPage deptUrl with
  | none => (Except.error ("Failed to fetch " ++ deptUrl), [NetOp.getReq deptUrl])
  | some _html =>
    match researchCandidateLoop env (researchPatterns deptUrl) with
    | (some u, t) => (Except.ok u, NetOp.getReq deptUrl :: t)
    | (none, t) =>
      match researchCandidateLoop env (scoreLinks deptUrl (env.anchors deptUrl) 5) with
      | (some u, t2) => (Except.ok u, NetOp.getReq deptUrl :: (t ++ t2))
      | (none, t2) => (Except.ok deptUrl, NetOp.getReq deptUrl :: (t ++ t2))

/-- `find_research_url(college, major)`: resolve the domain (failures
propagate), let Gemini suggest the page and accept its suggestion when a
HEAD probe succeeds, then resolve the department URL (failures propagate)
and run the research-page chain from it. -/
def findResearchUrl (env : Env) (college major : String) (gst : GeminiState) :
    (Except String String × GeminiState) × List NetOp :=
  match getRootDomain env college with
  | (Except.error e, t0) => ((Except.error e, gst), t0)
  | (Except.ok root, t0) =>
    let ((gurl, gst1), t1) := geminiSuggestResearchUrl env college major (some root) gst
    let geminiStep : Option String × List NetOp :=
      match gurl with
      | none => (none, [])
      | some gu =>
        match env.head gu with
        | some (status, finalUrl) =>
          (if status < 400 then some finalUrl else none, [NetOp.headReq gu])
        | none => (none, [NetOp.headReq gu])
    match geminiStep with
    | (some u, t2) => ((Except.ok u, gst1), t0 ++ (t1 ++ t2))
    | (none, t2) =>
      match deptResolve env root major with
      | (Except.error e, t3) => ((Except.error e, gst1), t0 ++ (t1 ++ (t2 ++ t3)))
      | (Except.ok deptUrl, t3) =>
        let (r, t4) := researchFromDept env deptUrl
        ((r, gst1), t0 ++ (t1 ++ (t2 ++ (t3 ++ t4))))

/-! ## `_extract_lab_areas` -/

/-- The reserved generic-heading set skipped by the extractor. -/
def genericHeadings : List String :=
  ["research", "overview", "contact", "news", "groups & labs",
   "main menu", "mini menu", "support us", "home", "slideshow"]

/-- A lab dictionary as built inside the extraction loop (before the
enrichment of `discover_labs_data`): the five keys the loop writes.
`professor_emails` models the `dict` as an insertion-ordered association
list, and `lab_url` the `str | None` value. -/
structure LabRaw where
  name : String
  description : String
  professors : List String
  professor_emails : List (String × String)
  lab_url : Option String
deriving DecidableEq, Repr

/-- The mutable loop state of the `h.next_elements` walk. -/
structure WalkSt where
  parts : List String
  profs : List String
  emails : List (String × String)
  labUrl : Option String
deriving DecidableEq, Repr

/-- Processing of one `views-row` anchor: a `mailto:` anchor contributes a
name (falling back to the email's local part) and its email; any other
anchor contributes the first proper-name match of its text. -/
def rowAnchorStep (acc : List String × List (String × String)) (a : LinkAnchor) :
    List String × List (String × String) :=
  if sStartsWith a.href "mailto:" then
    let email := sTrim (sRemoveAll a.href "mailto:")
    let name := if a.text ≠ "" then a.text
      else ((sSplitPred email (fun c => c = '@')).headD "")
    let profs := if name ∈ acc.1 then acc.1 else acc.1 ++ [name]
    (profs, assocSet acc.2 name email)
  else
    match profNameSearch a.text with
    | some cand =>
      let cand := sTrim cand
      if cand ∈ acc.1 then acc else (acc.1 ++ [cand], acc.2)
    | none => acc

/-- The body of the walk for one qualifying text block (`p`/`div`/`span`/
`li` whose stripped text exceeds 40 characters): append the block, use its
first anchor to backfill the lab URL (a `mailto:` anchor instead adds a
professor), and backfill the professors from an inline faculty pattern
when none are known yet. -/
def blockStep (pageUrl : String) (st : WalkSt) (txt : String)
    (anchor : Option LinkAnchor) : WalkSt :=
  let st1 : WalkSt := { st with parts := st.parts ++ [txt] }
  let st2 : WalkSt :=
    if st1.labUrl.isNone then
      match anchor with
      | none => st1
      | some a =>
        if a.href ≠ "" && ¬ sStartsWith a.href "#" &&
            ¬ sStartsWith (sLower a.href) "javascript" then
          if sStartsWith a.href "mailto:" then
            let email := sTrim (sRemoveAll a.href "mailto:")
            let name := if a.text ≠ "" then a.text
              else ((sSplitPred email (fun c => c = '@')).headD "")
            let profs := if name ∈ st1.profs then st1.profs else st1.profs ++ [name]
            { st1 with profs := profs, emails := assocSet st1.emails name email }
          else
            { st1 with labUrl := some (urljoin pageUrl a.href) }
        else st1
    else st1
  if st2.profs.isEmpty then
    match facultySplit txt with
    | some ps => { st2 with profs := ps }
    | none => st2
  else st2

/-- The `for el in h.next_elements` walk: strings are skipped, any
`h2`–`h4` stops the walk, qualifying text blocks feed `blockStep`, and the
walk also stops once the joined description exceeds 400 characters. -/
def walkBody (pageUrl : String) : List BodyEl → WalkSt → WalkSt
  | [], st => st
  | BodyEl.strEl _ :: rest, st => walkBody pageUrl rest st
  | BodyEl.tagEl tag txt anchor :: rest, st =>
    if tag = "h2" || tag = "h3" || tag = "h4" then st
    else
      let st' :=
        if (tag = "p" || tag = "div" || tag = "span" || tag = "li") &&
            (txt ≠ "" && 40 < txt.length) then
          blockStep pageUrl st txt anchor
        else st
      if 400 < (joinSep " " st'.parts).length then st'
      else walkBody pageUrl rest st'

/-- Order-preserving deduplication driver (first occurrence wins) for the
description lines, with the `seen_line` set made explicit. -/
def dedupLinesGo (seen : List String) : List String → List String
  | [] => []
  | l :: rest => if l ∈ seen then dedupLinesGo seen rest
    else l :: dedupLinesGo (l :: seen) rest

/-- Order-preserving deduplication of the description lines (first
occurrence wins), as the `seen_line` loop does. -/
def dedupLines : List String → List String := dedupLinesGo []

/-- The initial lab URL of a heading: the anchor wrapping the heading,
else the anchor inside it, else the first following anchor — discarded
again when the joined URL is a bare-fragment or script placeholder. -/
def initialLabUrl (pageUrl : String) (h : Heading) : Option String :=
  let fromAnchors : Option String :=
    match h.parentAnchorHref with
    | some href => some (urljoin pageUrl href)
    | none =>
      match h.innerAnchorHref with
      | some href => some (urljoin pageUrl href)
      | none => h.nextAnchorHref.map (urljoin pageUrl)
  match fromAnchors with
  | some lu =>
    if sEndsWith lu "#" || sStartsWith (sLower lu) "javascript" then none
    else some lu
  | none => none

/-- The professors and emails a heading seeds before the walk: the inline
`Faculty:`/`Professors:` pattern of the title, then the anchors of an
enclosing `views-row` container. -/
def headingSeed (h : Heading) : List String × List (String × String) :=
  let profs0 := (facultySplit h.title).getD []
  match h.rowAnchors with
  | none => (profs0, [])
  | some anchors => anchors.foldl rowAnchorStep (profs0, [])

/-- The walk state of a heading after the `next_elements` loop. -/
def headingWalk (pageUrl : String) (h : Heading) : WalkSt :=
  let seed := headingSeed h
  walkBody pageUrl h.body
    { parts := [], profs := seed.1, emails := seed.2,
      labUrl := initialLabUrl pageUrl h }

/-- The description lines of a heading: the blocks the walk collected, or
— when none were — the first 150 characters of the stripped following text
node (taken only from a non-empty node, as Python's truthiness test does). -/
def headingParts (pageUrl : String) (h : Heading) : List String :=
  let st := headingWalk pageUrl h
  if st.parts.isEmpty then
    match h.nextTextNode with
    | some s => if s ≠ "" then [sTake (sTrim s) 150] else []
    | none => []
  else st.parts

/-- One iteration of the heading loop of `_extract_lab_areas`: `none` when
the heading is rejected (no/short/generic title, or no description from
either source), otherwise the lab dictionary appended to `labs`.
The Python guard `if el in headings: break` inside the walk is subsumed by
the immediately following `h2`–`h4` tag check, since `headings` holds
exactly the document's `h2`–`h4` elements. -/
def buildLab (pageUrl : String) (h : Heading) : Option LabRaw :=
  if h.title = "" || h.title.length < 4 then none
  else if sTrim (sLower h.title) ∈ genericHeadings then none
  else
    let st := headingWalk pageUrl h
    let parts := headingParts pageUrl h
    if parts.isEmpty then none
    else
      some { name := h.title,
             description := joinSep "\n" ((dedupLines parts).take 3),
             professors := st.profs,
             professor_emails := st.emails,
             lab_url := st.labUrl }

/-- Final per-page deduplication driver (first occurrence wins), with the
`seen` name set made explicit. -/
def dedupByNameGo (seen : List String) : List LabRaw → List LabRaw
  | [] => []
  | lab :: rest =>
    if lab.name ∈ seen then dedupByNameGo seen rest
    else lab :: dedupByNameGo (lab.name :: seen) rest

/-- The final per-page deduplication by name (first occurrence wins). -/
def dedupByName : List LabRaw → List LabRaw := dedupByNameGo []

/-- `_extract_lab_areas(url)`: fetch and parse the page (a failure returns
the empty list), build a lab per qualifying heading, deduplicate by name
and cap the output at 40 records. -/
def extractLabAreas (env : Env) (url : String) : List LabRaw × List NetOp :=
  match env.page url with
  | none => ([], [NetOp.getReq url])
  | some pg =>
    ((dedupByName (pg.headings.filterMap (buildLab url))).take 40,
     [NetOp.getReq url])

/-! ## `_guess_email_for_name` -/

/-- `_guess_email_for_name(name, lab_netloc)`: lowercase and split the
name; fewer than two tokens guess to the empty string; otherwise the first
candidate `first-initial + last` is used at the host with a leading
`www.` stripped.  (The source builds two further candidates but only ever
uses the first.) -/
def guessEmailForName (name labNetloc : String) : String :=
  let nameParts := pySplit (sLower name)
  if nameParts.length < 2 then ""
  else
    let first := nameParts.headD ""
    let last := nameParts.getLastD ""
    let userCandidates := [sTake first 1 ++ last, first ++ "." ++ last,
                           first ++ sTake last 1]
    let host := if sStartsWith labNetloc "www." then sDrop labNetloc 4 else labNetloc
    userCandidates.headD "" ++ "@" ++ host

/-! ## `discover_labs_data` -/

/-- A JSON-ish Python value of the request body. -/
inductive PyVal where
  | pyNone
  | str (s : String)
  | int (n : Int)
  | bool (b : Bool)
deriving DecidableEq, Repr

/-- Python truthiness of the modelled values. -/
def PyVal.truthy : PyVal → Bool
  | .pyNone => false
  | .str s => s ≠ ""
  | .int n => n ≠ 0
  | .bool b => b

/-- `isinstance(v, str)`. -/
def PyVal.isStr : PyVal → Bool
  | .str _ => true
  | _ => false

/-- String formatting of a value where the source interpolates it. -/
def PyVal.format : PyVal → String
  | .pyNone => "None"
  | .str s => s
  | .int n => toString n
  | .bool b => if b then "True" else "False"

/-- `body.get(k)`: `None` for a missing key. -/
def pyGet (body : List (String × PyVal)) (k : String) : PyVal :=
  match body with
  | [] => PyVal.pyNone
  | (k0, v) :: rest => if k0 = k then v else pyGet rest k

/-- Python `a or b`. -/
def pyOr (a b : PyVal) : PyVal := if a.truthy then a else b

/-- One serialized faculty object `{name, role, email}`. -/
structure FacultyEntry where
  name : String
  role : String
  email : String
deriving DecidableEq, Repr

/-- A lab dictionary as returned by `discover_labs_data`.  The `Option`
fields model dictionary-key presence: `professor_roles` is only written by
the enrichment branch, and `lab_url` / `faculty` hold `some` once the loop
has written them. -/
structure LabOut where
  name : String
  description : String
  professors : List String
  professor_emails : List (String × String)
  professor_roles : Option (List (String × String))
  lab_url : Option String
  faculty : Option (List FacultyEntry)
deriving DecidableEq, Repr

/-- The serialized response `{research_url, labs}`. -/
structure DiscoverOut where
  research_url : String
  labs : List LabOut
deriving DecidableEq, Repr

/-- The faculty-list assembly: for each professor, the recorded email or
the guessed one, and the recorded role defaulting to `"Professor"`. -/
def buildFaculty (profs : List String) (emails : List (String × String))
    (roles : Option (List (String × String))) (labUrl : String) :
    List FacultyEntry :=
  profs.map fun n =>
    let e0 := assocGet emails n ""
    let e := if e0 = "" then guessEmailForName n (netlocOf labUrl) else e0
    { name := n, role := assocGet (roles.getD []) n "Professor", email := e }

/-- The per-lab body of `discover_labs_data`'s loop: default the lab URL
to the research page, enrich an empty professor list via the local
personnel scrape then the Gemini fallback (writing `professor_roles` only
when this produced names), and build the uniform `faculty` list. -/
def enrichLab (env : Env) (college researchUrl : String) (lab : LabRaw) :
    LabOut × List NetOp :=
  let labUrl :=
    match lab.lab_url with
    | some u => if u = "" then researchUrl else u
    | none => researchUrl
  let enriched :
      List String × List (String × String) × Option (List (String × String)) × List NetOp :=
    if lab.professors.isEmpty then
      let ((ns1, es1, rs1), tr1) := env.scrapePersonnel labUrl
      if ns1.isEmpty then
        let ((ns2, es2), tr2) := env.geminiProfessors labUrl college
        if ns2.isEmpty then (lab.professors, lab.professor_emails, none, tr1 ++ tr2)
        else (ns2, es2, some rs1, tr1 ++ tr2)
      else (ns1, es1, some rs1, tr1)
    else (lab.professors, lab.professor_emails, none, ([] : List NetOp))
  ({ name := lab.name, description := lab.description,
     professors := enriched.1,
     professor_emails := enriched.2.1,
     professor_roles := enriched.2.2.1,
     lab_url := some labUrl,
     faculty := some (buildFaculty enriched.1 enriched.2.1 enriched.2.2.1 labUrl) },
   enriched.2.2.2)

/-- The enrichment loop over all extracted labs. -/
def enrichAll (env : Env) (college researchUrl : String) (labs : List LabRaw) :
    List LabOut × List NetOp :=
  let pairs := labs.map (enrichLab env college researchUrl)
  (pairs.map Prod.fst, (pairs.map Prod.snd).flatten)

/-- `discover_labs_data(body)`: coalesce `college or university` and
`major or "Computer Science"`, reject a falsy or non-string college before
anything else runs, then run the discovery chain; any pipeline failure
(including zero extracted labs) is re-raised as the user-facing
"could not find research information" error. -/
def discoverLabsData (env : Env) (body : List (String × PyVal))
    (gst : GeminiState) :
    (Except String DiscoverOut × GeminiState) × List NetOp :=
  let collegeV := pyOr (pyGet body "college") (pyGet body "university")
  let majorV := pyOr (pyGet body "major") (PyVal.str "Computer Science")
  if (! collegeV.truthy) || (! collegeV.isStr) then
    ((Except.error "Missing required field 'college'", gst), [])
  else
    let college := collegeV.format
    let major := majorV.format
    match findResearchUrl env college major gst with
    | ((Except.error e, gst1), t0) =>
      ((Except.error ("Could not find research information for " ++ college ++
          ". Error: " ++ e), gst1), t0)
    | ((Except.ok researchUrl, gst1), t0) =>
      let (labs0, t1) := extractLabAreas env researchUrl
      let (labs, t2) := enrichAll env college researchUrl labs0
      if labs.isEmpty then
        ((Except.error ("Could not find research information for " ++ college ++
            ". Error: Unable to extract research areas from discovered page"),
          gst1), t0 ++ (t1 ++ t2))
      else
        ((Except.ok { research_url := researchUrl, labs := labs }, gst1),
         t0 ++ (t1 ++ t2))

/-! ## Concrete environments used by witnesses and counterexamples -/

/-- An environment in which every external service fails or is absent. -/
def envDead : Env where
  live := fun _ => false
  searchHits := fun _ => []
  openaiKey := false
  openaiResp := none
  geminiEnabled := false
  geminiKey := false
  geminiText := none
  now := 0
  head := fun _ => none
  fetchPage := fun _ => none
  anchors := fun _ => []
  page := fun _ => none
  scrapePersonnel := fun _ => (([], [], []), [])
  geminiProfessors := fun _ _ => (([], []), [])

/-- The `next_elements` view of a small single-lab page: one paragraph of
more than forty characters. -/
def visionBody : List BodyEl :=
  [BodyEl.tagEl "p"
    "A laboratory studying computer vision, robotics and machine perception systems."
    none]

/-- A qualifying heading with a description block. -/
def visionHeading : Heading where
  title := "Vision Lab"
  parentAnchorHref := none
  innerAnchorHref := none
  nextAnchorHref := none
  rowAnchors := none
  body := visionBody
  nextTextNode := none

/-- A heading with no description block and no following text node. -/
def emptyHeading : Heading where
  title := "Quantum Lab"
  parentAnchorHref := none
  innerAnchorHref := none
  nextAnchorHref := none
  rowAnchors := none
  body := []
  nextTextNode := none

/-- A parsed page with one qualifying lab heading and one empty one. -/
def visionPage : Page where
  headings := [visionHeading, emptyHeading]

/-- A healthy environment: the alias domain is live, HEAD probes succeed
in place, every fetched page shows a research heading, and the parsed page
is `visionPage`; Gemini and the personnel sources yield nothing. -/
def envOk : Env where
  live := fun _ => true
  searchHits := fun _ => []
  openaiKey := false
  openaiResp := none
  geminiEnabled := false
  geminiKey := false
  geminiText := none
  now := 0
  head := fun u => some (200, u)
  fetchPage := fun _ => some "<h2>research areas</h2>"
  anchors := fun _ => []
  page := fun _ => some visionPage
  scrapePersonnel := fun u => (([], [], []), [NetOp.getReq u])
  geminiProfessors := fun _ _ => (([], []), [])

/-- Like `envOk` but every fetched page lacks research/lab/group headings,
so every `is_research_page` check fails and the finder degrades to the
department URL. -/
def envPlain : Env :=
  { envOk with fetchPage := fun _ => some "<p>no headings here</p>" }

/-- An environment with Gemini enabled and answering a fixed research URL. -/
def envGem : Env :=
  { envDead with
    geminiEnabled := true
    geminiKey := true
    geminiText := some "https://www.cs.gatech.edu/research"
    now := 1000 }

/-- The raw record the extractor builds for the vision-lab heading. -/
def visionLabRaw : LabRaw where
  name := "Vision Lab"
  description := "A laboratory studying computer vision, robotics and machine perception systems."
  professors := []
  professor_emails := []
  lab_url := none

/-- The enriched record that `envOk` produces for the vision lab. -/
def labOutVision : LabOut where
  name := "Vision Lab"
  description := "A laboratory studying computer vision, robotics and machine perception systems."
  professors := []
  professor_emails := []
  professor_roles := none
  lab_url := some "https://www.cs.gatech.edu/research"
  faculty := some []

/-- The full successful response of `envOk`. -/
def outOkC5 : DiscoverOut where
  research_url := "https://www.cs.gatech.edu/research"
  labs := [labOutVision]

deriving instance DecidableEq for Except

/-! ## Theorems -/

/-- C7: the email guesser applied to name "Jane Doe" and host
"www.cs.example.edu" returns "jdoe@cs.example.edu" (first initial plus
last token at the host with a leading "www." stripped), and every name
with fewer than two whitespace-separated tokens guesses to the empty
string. -/
theorem c7_email_guesser :
    guessEmailForName "Jane Doe" "www.cs.example.edu" = "jdoe@cs.example.edu" ∧
    ∀ name host : String, (pySplit (sLower name)).length < 2 →
      guessEmailForName name host = "" := by
  refine ⟨rfl, ?_⟩
  intro name host h
  unfold guessEmailForName
  simp [h]

/-- Witness for C7: the single-token clause evaluated at "Madonna". -/
theorem c7_email_guesser_witness :
    (pySplit (sLower "Madonna")).length < 2 ∧
    guessEmailForName "Madonna" "cs.example.edu" = "" :=
  ⟨by decide, c7_email_guesser.2 "Madonna" "cs.example.edu" (by decide)⟩

/-- C1: the suggestion cache is written but never consulted.  With Gemini
enabled and answering, a first call stores a fresh cache entry for the key
(timestamp `now`, so its age 0 is inside the positive TTL window), yet a
second call with the same (institution, department) starting from that
very cache still performs an LLM call — the code issues two underlying
LLM calls where the claim requires one. -/
theorem c1_cache_written_never_read :
    (geminiSuggestResearchUrl envGem "Georgia Tech" "Computer Science"
        (some "gatech.edu") []).2 = [NetOp.llm] ∧
    (geminiSuggestResearchUrl envGem "Georgia Tech" "Computer Science"
        (some "gatech.edu") []).1.2
      = [(("georgia tech", "computer science"),
          (some "https://www.cs.gatech.edu/research", 1000))] ∧
    0 < geminiCacheTTL ∧
    (geminiSuggestResearchUrl envGem "Georgia Tech" "Computer Science"
        (some "gatech.edu")
        ((geminiSuggestResearchUrl envGem "Georgia Tech" "Computer Science"
            (some "gatech.edu") []).1.2)).2 = [NetOp.llm] :=
  ⟨rfl, rfl, by decide, rfl⟩

/-- Counterexample for C9: a body whose `college` field is missing but
whose `university` field is a valid string is not rejected — the pipeline
runs (the network trace is non-empty) and succeeds. -/
theorem c9_counterexample :
    pyGet [("university", PyVal.str "Georgia Tech")] "college" = PyVal.pyNone ∧
    (discoverLabsData envOk [("university", PyVal.str "Georgia Tech")] []).1.1
      ≠ Except.error "Missing required field 'college'" ∧
    (discoverLabsData envOk [("university", PyVal.str "Georgia Tech")] []).2 ≠ [] :=
  ⟨rfl, by decide, by decide⟩

/-- C9 (amended): validation is checked on the coalesced
`college or university` value; whenever that value is falsy or not a
string, `discover_labs_data` raises the validation error with no network
operation performed and the cache untouched. -/
theorem c9_validation_rejects_before_network (env : Env)
    (body : List (String × PyVal)) (gst : GeminiState)
    (h : (pyOr (pyGet body "college") (pyGet body "university")).truthy = false ∨
         (pyOr (pyGet body "college") (pyGet body "university")).isStr = false) :
    discoverLabsData env body gst =
      ((Except.error "Missing required field 'college'", gst), []) := by
  unfold discoverLabsData
  rcases h with h | h <;> simp [h]

/-- Witness for C9 (amended): a truthy non-string `college` value. -/
theorem c9_validation_witness :
    discoverLabsData envOk [("college", PyVal.int 7)] [] =
      ((Except.error "Missing required field 'college'", []), []) :=
  c9_validation_rejects_before_network envOk [("college", PyVal.int 7)] []
    (Or.inr (by decide))

/-- Counterexample for C5: a successful discovery run in which the
extracted lab kept its page-scraped (empty) professor data, so the
serialized record carries no `professor_roles` key at all. -/
theorem c5_counterexample :
    (Except.map (fun o => o.labs.map LabOut.professor_roles)
      (discoverLabsData envOk [("college", PyVal.str "Georgia Tech")] []).1.1)
      = Except.ok [none] := by
  rfl

/-- Every lab produced by the enrichment loop carries a `lab_url` value
and a `faculty` list. -/
theorem enrichLab_has_url_and_faculty (env : Env) (college researchUrl : String)
    (lab : LabRaw) :
    (enrichLab env college researchUrl lab).1.lab_url.isSome = true ∧
    (enrichLab env college researchUrl lab).1.faculty.isSome = true :=
  ⟨rfl, rfl⟩

/-- C5 (amended): every lab record returned by a successful
`discover_labs_data` call carries values for `lab_url` and `faculty` (the
other always-written keys — `name`, `description`, `professors`,
`professor_emails` — are total fields of the record, and `faculty` is a
list of `{name, role, email}` objects by construction); the
`professor_roles` key, by contrast, is written only when enrichment
replaced an empty professor list, as the counterexample shows. -/
theorem c5_output_keys (env : Env) (body : List (String × PyVal))
    (gst : GeminiState) (out : DiscoverOut)
    (h : (discoverLabsData env body gst).1.1 = Except.ok out) :
    ∀ lab ∈ out.labs, lab.lab_url.isSome = true ∧ lab.faculty.isSome = true := by
  intro lab hmem
  unfold discoverLabsData at h
  dsimp only at h
  by_cases hval : (!(pyOr (pyGet body "college") (pyGet body "university")).truthy ||
      !(pyOr (pyGet body "college") (pyGet body "university")).isStr) = true
  · rw [if_pos hval] at h
    simp at h
  · rw [if_neg hval] at h
    rcases hF : findResearchUrl env
        (pyOr (pyGet body "college") (pyGet body "university")).format
        (pyOr (pyGet body "major") (PyVal.str "Computer Science")).format gst with
      ⟨⟨res, gst1⟩, t0⟩
    rw [hF] at h
    cases res with
    | error e => simp at h
    | ok researchUrl =>
      dsimp only at h
      by_cases hemp : (enrichAll env
          (pyOr (pyGet body "college") (pyGet body "university")).format
          researchUrl (extractLabAreas env researchUrl).1).1.isEmpty = true
      · rw [if_pos hemp] at h
        simp at h
      · rw [if_neg hemp] at h
        simp only [Except.ok.injEq] at h
        subst h
        simp only [enrichAll, List.map_map, List.mem_map] at hmem
        obtain ⟨raw, _, rfl⟩ := hmem
        exact enrichLab_has_url_and_faculty _ _ _ _

/-- Witness for C5 (amended): the concrete successful run of `envOk`, with
the membership hypothesis discharged at its single lab record. -/
theorem c5_output_keys_witness :
    labOutVision.lab_url.isSome = true ∧ labOutVision.faculty.isSome = true :=
  c5_output_keys envOk [("college", PyVal.str "Georgia Tech")] [] outOkC5 rfl
    labOutVision (by decide)

/-- A domain returned by the candidate probe loop passed the liveness
check. -/
theorem probeLoop_live (env : Env) :
    ∀ cands d, (probeLoop env cands).1 = some d → env.live d = true := by
  intro cands
  induction cands with
  | nil => intro d h; simp [probeLoop] at h
  | cons dom rest ih =>
    intro d h
    unfold probeLoop at h
    by_cases hl : env.live dom = true
    · rw [if_pos hl] at h
      obtain rfl : dom = d := by simpa using h
      exact hl
    · rw [if_neg hl] at h
      exact ih d (by simpa using h)

/-- A host returned by the search-hit loop passed the liveness check. -/
theorem findEduHit_live (env : Env) :
    ∀ hits d, (findEduHit env hits).1 = some d → env.live d = true := by
  intro hits
  induction hits with
  | nil => intro d h; simp [findEduHit] at h
  | cons url rest ih =>
    intro d h
    unfold findEduHit at h
    by_cases hu : url = ""
    · rw [if_pos hu] at h
      exact ih d h
    · rw [if_neg hu] at h
      dsimp only at h
      by_cases hedu : sEndsWith (netlocOf url) ".edu" = true
      · rw [if_pos hedu] at h
        by_cases hl : env.live (netlocOf url) = true
        · rw [if_pos hl] at h
          obtain rfl : netlocOf url = d := by simpa using h
          exact hl
        · rw [if_neg hl] at h
          exact ih d (by simpa using h)
      · rw [if_neg hedu] at h
        exact ih d h

/-- A host returned by the query loop passed the liveness check. -/
theorem domainSearchLoop_live (env : Env) :
    ∀ qs d, (domainSearchLoop env qs).1 = some d → env.live d = true := by
  intro qs
  induction qs with
  | nil => intro d h; simp [domainSearchLoop] at h
  | cons q rest ih =>
    intro d h
    unfold domainSearchLoop at h
    rcases hit : findEduHit env (env.searchHits q) with ⟨r, t⟩
    rw [hit] at h
    cases r with
    | some host =>
      have hlive : env.live host = true := by
        have hx := findEduHit_live env (env.searchHits q) host
        rw [hit] at hx
        exact hx rfl
      obtain rfl : host = d := by simpa using h
      exact hlive
    | none => exact ih d (by simpa using h)

/-- A domain returned by the token-abbreviation guess passed the liveness
check. -/
theorem guessDomainFromTokens_live (env : Env) (college : String) :
    ∀ d, (guessDomainFromTokens env college).1 = some d → env.live d = true := by
  intro d h
  unfold guessDomainFromTokens at h
  by_cases ht : (guessTokens college).isEmpty = true
  · rw [if_pos ht] at h
    simp at h
  · rw [if_neg ht] at h
    exact probeLoop_live env _ d h

/-- A domain returned by the OpenAI fallback passed the liveness check. -/
theorem llmDomainStep_live (env : Env) :
    ∀ d, (llmDomainStep env).1 = some d → env.live d = true := by
  intro d h
  unfold llmDomainStep at h
  by_cases hk : env.openaiKey = true
  · simp only [hk] at h
    rcases hres : env.openaiResp with _ | content
    · rw [hres] at h
      simp at h
    · rw [hres] at h
      dsimp only at h
      by_cases hedu : sEndsWith (sLower (sTrim content)) ".edu" = true
      · rw [if_pos hedu] at h
        by_cases hl : env.live (sLower (sTrim content)) = true
        · rw [if_pos hl] at h
          obtain rfl : sLower (sTrim content) = d := by simpa using h
          exact hl
        · rw [if_neg hl] at h
          simp at h
      · rw [if_neg hedu] at h
        simp at h
  · simp only [hk] at h
    simp at h

/-- A domain produced by the post-alias strategy chain passed the liveness
check. -/
theorem resolveAfterAlias_live (env : Env) (college : String) :
    ∀ d, (resolveAfterAlias env college).1 = Except.ok d → env.live d = true := by
  intro d h
  unfold resolveAfterAlias at h
  rcases h1 : domainSearchLoop env (domainSearchQueries college) with ⟨r1, t1⟩
  rw [h1] at h
  cases r1 with
  | some host =>
    have hlive : env.live host = true := by
      have hx := domainSearchLoop_live env (domainSearchQueries college) host
      rw [h1] at hx
      exact hx rfl
    obtain rfl : host = d := by simpa using h
    exact hlive
  | none =>
    rcases h2 : guessDomainFromTokens env college with ⟨r2, t2⟩
    rw [h2] at h
    cases r2 with
    | some dom =>
      have hlive : env.live dom = true := by
        have hx := guessDomainFromTokens_live env college dom
        rw [h2] at hx
        exact hx rfl
      obtain rfl : dom = d := by simpa using h
      exact hlive
    | none =>
      rcases h3 : llmDomainStep env with ⟨r3, t3⟩
      rw [h3] at h
      cases r3 with
      | some dom =>
        have hlive : env.live dom = true := by
          have hx := llmDomainStep_live env dom
          rw [h3] at hx
          exact hx rfl
        obtain rfl : dom = d := by simpa using h
        exact hlive
      | none => simp at h

/-- C4: every domain `get_root_domain` returns — from the known-alias
table, a search hit, a token-abbreviation guess or the LLM fallback — has
passed the boolean liveness probe; the resolver never returns a domain for
which the probe failed. -/
theorem c4_resolver_returns_only_live_domains (env : Env) (college : String)
    (d : String) (h : (getRootDomain env college).1 = Except.ok d) :
    env.live d = true := by
  unfold getRootDomain at h
  rcases halias : lookupStr knownDomains (sLower (sTrim college)) with _ | dom
  · rw [halias] at h
    exact resolveAfterAlias_live env college d h
  · rw [halias] at h
    dsimp only at h
    by_cases hl : env.live dom = true
    · rw [if_pos hl] at h
      obtain rfl : dom = d := by simpa using h
      exact hl
    · rw [if_neg hl] at h
      exact resolveAfterAlias_live env college d (by simpa using h)

/-- Witness for C4: the alias path of `envOk` resolves Georgia Tech. -/
theorem c4_resolver_returns_only_live_domains_witness :
    envOk.live "gatech.edu" = true :=
  c4_resolver_returns_only_live_domains envOk "Georgia Tech" "gatech.edu" rfl

/-- C6: when the normalised institution name is a known alias, a live
mapped domain is returned with no search-engine call (the whole trace is
one liveness probe), and a dead mapped domain makes the resolver fall
through to the post-alias strategies rather than returning it. -/
theorem c6_known_alias_behaviour (env : Env) (college dom : String)
    (h : lookupStr knownDomains (sLower (sTrim college)) = some dom) :
    (env.live dom = true →
       getRootDomain env college = (Except.ok dom, [NetOp.probe dom]) ∧
       ((getRootDomain env college).2.filter NetOp.isSearch) = []) ∧
    (env.live dom = false →
       (getRootDomain env college).1 = (resolveAfterAlias env college).1) := by
  constructor
  · intro hlive
    have hg : getRootDomain env college = (Except.ok dom, [NetOp.probe dom]) := by
      unfold getRootDomain
      rw [h]
      simp [hlive]
    refine ⟨hg, ?_⟩
    rw [hg]
    rfl
  · intro hdead
    unfold getRootDomain
    rw [h]
    simp [hdead]

/-- Witness for C6: the live alias case on `envOk` and the dead-alias
fall-through on `envDead`, both at Georgia Tech. -/
theorem c6_known_alias_behaviour_witness :
    getRootDomain envOk "Georgia Tech" =
      (Except.ok "gatech.edu", [NetOp.probe "gatech.edu"]) ∧
    (getRootDomain envDead "Georgia Tech").1 =
      (resolveAfterAlias envDead "Georgia Tech").1 :=
  ⟨((c6_known_alias_behaviour envOk "Georgia Tech" "gatech.edu" rfl).1 rfl).1,
   (c6_known_alias_behaviour envDead "Georgia Tech" "gatech.edu" rfl).2 rfl⟩

/-- The per-page name deduplication emits pairwise-distinct names, none of
which is in the already-seen set. -/
theorem dedupByNameGo_names (l : List LabRaw) :
    ∀ seen : List String,
      ((dedupByNameGo seen l).map LabRaw.name).Nodup ∧
      ∀ lab ∈ dedupByNameGo seen l, lab.name ∉ seen := by
  induction l with
  | nil => intro seen; simp [dedupByNameGo]
  | cons lab rest ih =>
    intro seen
    unfold dedupByNameGo
    by_cases hs : lab.name ∈ seen
    · rw [if_pos hs]
      exact ih seen
    · rw [if_neg hs]
      refine ⟨?_, ?_⟩
      · simp only [List.map_cons, List.nodup_cons]
        refine ⟨?_, (ih (lab.name :: seen)).1⟩
        intro hmem
        obtain ⟨x, hx, hxe⟩ := List.mem_map.mp hmem
        exact (ih (lab.name :: seen)).2 x hx (by rw [hxe]; exact List.mem_cons_self _ _)
      · intro x hx
        rcases List.mem_cons.mp hx with rfl | hx'
        · exact hs
        · intro hxin
          exact (ih (lab.name :: seen)).2 x hx' (List.mem_cons_of_mem _ hxin)

/-- Deduplication only keeps records of the input list. -/
theorem dedupByNameGo_subset (l : List LabRaw) :
    ∀ (seen : List String) (lab : LabRaw), lab ∈ dedupByNameGo seen l → lab ∈ l := by
  induction l with
  | nil => intro seen lab h; simp [dedupByNameGo] at h
  | cons x rest ih =>
    intro seen lab h
    unfold dedupByNameGo at h
    by_cases hs : x.name ∈ seen
    · rw [if_pos hs] at h
      exact List.mem_cons_of_mem _ (ih seen lab h)
    · rw [if_neg hs] at h
      rcases List.mem_cons.mp h with rfl | h'
      · exact List.mem_cons_self _ _
      · exact List.mem_cons_of_mem _ (ih (x.name :: seen) lab h')

/-- A record the heading loop emits keeps the heading's title as its name,
and that title passed the length and generic-heading filters. -/
theorem buildLab_name (pageUrl : String) (hd : Heading) (lab : LabRaw)
    (hb : buildLab pageUrl hd = some lab) :
    lab.name = hd.title ∧ 4 ≤ lab.name.length ∧
    sTrim (sLower lab.name) ∉ genericHeadings := by
  unfold buildLab at hb
  split at hb
  · exact absurd hb (by simp)
  · next hcond1 =>
    split at hb
    · exact absurd hb (by simp)
    · next hcond2 =>
      dsimp only at hb
      by_cases hparts : (headingParts pageUrl hd).isEmpty = true
      · rw [if_pos hparts] at hb
        exact absurd hb (by simp)
      · rw [if_neg hparts] at hb
        have hrec := Option.some.inj hb
        have hname : lab.name = hd.title := by rw [← hrec]
        refine ⟨hname, ?_, ?_⟩
        · rw [hname]
          simp only [Bool.or_eq_true, decide_eq_true_eq, not_or] at hcond1
          omega
        · rw [hname]
          exact hcond2

/-- C3: on every page, the extractor emits at most 40 records, their names
are pairwise distinct (the first occurrence wins), and every name has at
least 4 characters and is not a reserved generic heading (neither after
case/whitespace normalisation nor verbatim). -/
theorem c3_extractor_invariants (env : Env) (url : String) :
    (extractLabAreas env url).1.length ≤ 40 ∧
    ((extractLabAreas env url).1.map LabRaw.name).Nodup ∧
    ∀ lab ∈ (extractLabAreas env url).1,
      4 ≤ lab.name.length ∧
      sTrim (sLower lab.name) ∉ genericHeadings ∧
      lab.name ∉ genericHeadings := by
  rcases hp : env.page url with _ | pg
  · unfold extractLabAreas
    rw [hp]
    simp
  · unfold extractLabAreas
    rw [hp]
    dsimp only
    refine ⟨List.length_take_le _ _, ?_, ?_⟩
    · have hn := (dedupByNameGo_names (pg.headings.filterMap (buildLab url)) []).1
      have hsub : List.Sublist
          ((dedupByName (pg.headings.filterMap (buildLab url))).take 40)
          (dedupByName (pg.headings.filterMap (buildLab url))) :=
        List.take_sublist _ _
      exact List.Nodup.sublist (List.Sublist.map _ hsub) hn
    · intro lab hmem
      have h1 : lab ∈ dedupByName (pg.headings.filterMap (buildLab url)) :=
        List.mem_of_mem_take hmem
      have h2 : lab ∈ pg.headings.filterMap (buildLab url) :=
        dedupByNameGo_subset _ _ lab h1
      obtain ⟨hd, _, hb⟩ := List.mem_filterMap.mp h2
      obtain ⟨_, hlen, hgen⟩ := buildLab_name url hd lab hb
      refine ⟨hlen, hgen, ?_⟩
      intro hingen
      have hfix : ∀ g ∈ genericHeadings, sTrim (sLower g) = g := by decide
      exact hgen (by rw [hfix lab.name hingen]; exact hingen)

/-- Witness for C3: the per-record clause at the vision-lab record
extracted by `envOk`. -/
theorem c3_extractor_invariants_witness :
    4 ≤ visionLabRaw.name.length ∧
    sTrim (sLower visionLabRaw.name) ∉ genericHeadings ∧
    visionLabRaw.name ∉ genericHeadings :=
  (c3_extractor_invariants envOk "https://www.cs.gatech.edu/research").2.2
    visionLabRaw (by decide)

/-- C8: for every emitted lab record the description is the newline-join
of at most the first three pairwise-distinct collected blocks in original
order; when no block was collected it is the first 150 characters of the
stripped nearest following text node (which must be a non-empty node); and
a heading with neither source yields no record at all. -/
theorem c8_description_from_blocks_or_fallback (u : String) (hd : Heading) :
    (∀ lab, buildLab u hd = some lab →
      ((headingWalk u hd).parts ≠ [] →
        lab.description =
          joinSep "\n" ((dedupLines (headingWalk u hd).parts).take 3)) ∧
      ((headingWalk u hd).parts = [] →
        ∃ s, hd.nextTextNode = some s ∧ s ≠ "" ∧
          lab.description = sTake (sTrim s) 150)) ∧
    ((headingWalk u hd).parts = [] →
      (hd.nextTextNode = none ∨ hd.nextTextNode = some "") →
      buildLab u hd = none) := by
  constructor
  · intro lab hb
    unfold buildLab at hb
    split at hb
    · exact absurd hb (by simp)
    · split at hb
      · exact absurd hb (by simp)
      · dsimp only at hb
        by_cases hparts : (headingParts u hd).isEmpty = true
        · rw [if_pos hparts] at hb
          exact absurd hb (by simp)
        · rw [if_neg hparts] at hb
          have hrec := Option.some.inj hb
          constructor
          · intro hne
            have hp : headingParts u hd = (headingWalk u hd).parts := by
              unfold headingParts
              rw [if_neg (by simpa using hne)]
            rw [← hrec]
            dsimp only
            rw [hp]
          · intro hemp
            have hp0 : headingParts u hd =
                (match hd.nextTextNode with
                 | some s => if s ≠ "" then [sTake (sTrim s) 150] else []
                 | none => []) := by
              unfold headingParts
              rw [if_pos (by simpa using hemp)]
            rcases hn : hd.nextTextNode with _ | s
            · rw [hn] at hp0
              exact absurd (by rw [hp0]; rfl) hparts
            · rw [hn] at hp0
              by_cases hs : s = ""
              · subst hs
                exact absurd (by rw [hp0]; simp) hparts
              · refine ⟨s, rfl, hs, ?_⟩
                rw [← hrec]
                dsimp only
                rw [hp0]
                simp only [hs, ne_eq, not_false_eq_true, if_true]
                simp [dedupLines, dedupLinesGo, joinSep]
  · intro hemp hnode
    unfold buildLab
    split
    · rfl
    · split
      · rfl
      · dsimp only
        have hp : headingParts u hd = [] := by
          unfold headingParts
          rw [if_pos (by simpa using hemp)]
          rcases hnode with hn | hn
          · rw [hn]
          · rw [hn]
            simp
        rw [hp]
        rfl

/-- Witness for C8: the block-built description of the vision-lab heading
and the dropped empty heading, both at the concrete research page. -/
theorem c8_description_from_blocks_or_fallback_witness :
    visionLabRaw.description = joinSep "\n"
      ((dedupLines (headingWalk "https://www.cs.gatech.edu/research"
        visionHeading).parts).take 3) ∧
    buildLab "https://www.cs.gatech.edu/research" emptyHeading = none :=
  ⟨((c8_description_from_blocks_or_fallback "https://www.cs.gatech.edu/research"
      visionHeading).1 visionLabRaw rfl).1 (by decide),
   (c8_description_from_blocks_or_fallback "https://www.cs.gatech.edu/research"
      emptyHeading).2 rfl (Or.inl rfl)⟩

/-- Counterexample for C2: with every external service down,
`find_research_url` propagates `get_root_domain`'s `RuntimeError` instead
of returning a URL. -/
theorem c2_counterexample :
    (findResearchUrl envDead "Nowhere University" "Computer Science" []).1.1
      = Except.error "Could not resolve root domain for Nowhere University" :=
  rfl

/-- When every listing check fails, the candidate loop accepts nothing. -/
theorem researchCandidateLoop_none (env : Env)
    (hall : ∀ url, (isResearchPage env url).1 = false) :
    ∀ l, (researchCandidateLoop env l).1 = none := by
  intro l
  induction l with
  | nil => rfl
  | cons p rest ih =>
    unfold researchCandidateLoop
    rcases hi : isResearchPage env p with ⟨b, t⟩
    have hb : b = false := by
      have := hall p
      rw [hi] at this
      exact this
    subst hb
    dsimp only
    exact ih

/-- Once the department page has been fetched, the research-page chain
always produces a URL. -/
theorem researchFromDept_ok (env : Env) (deptUrl html : String)
    (h3 : env.fetchPage deptUrl = some html) :
    ∃ u t, researchFromDept env deptUrl = (Except.ok u, t) := by
  unfold researchFromDept
  rw [h3]
  rcases hc1 : researchCandidateLoop env (researchPatterns deptUrl) with ⟨r1, t1⟩
  cases r1 with
  | some u => exact ⟨u, _, rfl⟩
  | none =>
    rcases hc2 : researchCandidateLoop env
        (scoreLinks deptUrl (env.anchors deptUrl) 5) with ⟨r2, t2⟩
    cases r2 with
    | some u => exact ⟨u, _, rfl⟩
    | none => exact ⟨deptUrl, _, rfl⟩

/-- With the department page fetched but every listing check failing, the
chain degrades to the department URL itself. -/
theorem researchFromDept_default (env : Env) (deptUrl html : String)
    (h3 : env.fetchPage deptUrl = some html)
    (hall : ∀ url, (isResearchPage env url).1 = false) :
    (researchFromDept env deptUrl).1 = Except.ok deptUrl := by
  unfold researchFromDept
  rw [h3]
  rcases hc1 : researchCandidateLoop env (researchPatterns deptUrl) with ⟨r1, t1⟩
  have hr1 : r1 = none := by
    have := researchCandidateLoop_none env hall (researchPatterns deptUrl)
    rw [hc1] at this
    exact this
  subst hr1
  rcases hc2 : researchCandidateLoop env
      (scoreLinks deptUrl (env.anchors deptUrl) 5) with ⟨r2, t2⟩
  have hr2 : r2 = none := by
    have := researchCandidateLoop_none env hall
      (scoreLinks deptUrl (env.anchors deptUrl) 5)
    rw [hc2] at this
    exact this
  subst hr2
  rfl

/-- C2 (amended): `find_research_url` raises when domain resolution, the
department-URL resolution or the department-homepage fetch fails (as the
counterexample shows); whenever those three prerequisites succeed it
returns some URL, and when additionally the Gemini suggestion is absent
and every listing check fails, that URL is the department homepage
itself. -/
theorem c2_finder_returns_url (env : Env) (college major : String)
    (gst : GeminiState) (root deptUrl html : String)
    (h1 : (getRootDomain env college).1 = Except.ok root)
    (h2 : (deptResolve env root major).1 = Except.ok deptUrl)
    (h3 : env.fetchPage deptUrl = some html) :
    (∃ u gst' t, findResearchUrl env college major gst = ((Except.ok u, gst'), t)) ∧
    ((geminiSuggestResearchUrl env college major (some root) gst).1.1 = none →
     (∀ url, (isResearchPage env url).1 = false) →
     (findResearchUrl env college major gst).1.1 = Except.ok deptUrl) := by
  rcases hg : getRootDomain env college with ⟨res0, t0⟩
  have hres0 : res0 = Except.ok root := by
    rw [hg] at h1
    exact h1
  subst hres0
  rcases hgem : geminiSuggestResearchUrl env college major (some root) gst with
    ⟨⟨gurl, gst1⟩, t1⟩
  rcases hd : deptResolve env root major with ⟨resd, t3⟩
  have hresd : resd = Except.ok deptUrl := by
    rw [hd] at h2
    exact h2
  subst hresd
  obtain ⟨ur, tr, hfd⟩ := researchFromDept_ok env deptUrl html h3
  constructor
  · unfold findResearchUrl
    rw [hg]
    dsimp only
    rw [hgem]
    dsimp only
    cases gurl with
    | some gu =>
      dsimp only
      rcases hh : env.head gu with _ | sf
      · dsimp only
        rw [hd]
        dsimp only
        rw [hfd]
        exact ⟨ur, gst1, _, rfl⟩
      · rcases sf with ⟨status, finalUrl⟩
        dsimp only
        by_cases hst : status < 400
        · rw [if_pos hst]
          dsimp only
          exact ⟨finalUrl, gst1, _, rfl⟩
        · rw [if_neg hst]
          dsimp only
          rw [hd]
          dsimp only
          rw [hfd]
          exact ⟨ur, gst1, _, rfl⟩
    | none =>
      dsimp only
      rw [hd]
      dsimp only
      rw [hfd]
      exact ⟨ur, gst1, _, rfl⟩
  · intro hgnone hall
    have hgu : gurl = none := hgnone
    subst hgu
    unfold findResearchUrl
    rw [hg]
    dsimp only
    rw [hgem]
    dsimp only
    rw [hd]
    dsimp only
    exact researchFromDept_default env deptUrl html h3 hall

/-- Witness for C2 (amended): on `envOk` the finder returns a URL, and on
`envPlain` (no listing page anywhere) it degrades to the department
homepage. -/
theorem c2_finder_returns_url_witness :
    (∃ u gst' t, findResearchUrl envOk "Georgia Tech" "Computer Science" [] =
      ((Except.ok u, gst'), t)) ∧
    (findResearchUrl envPlain "Georgia Tech" "Computer Science" []).1.1 =
      Except.ok "https://www.cs.gatech.edu" :=
  ⟨(c2_finder_returns_url envOk "Georgia Tech" "Computer Science" []
      "gatech.edu" "https://www.cs.gatech.edu" "<h2>research areas</h2>"
      rfl rfl rfl).1,
   (c2_finder_returns_url envPlain "Georgia Tech" "Computer Science" []
      "gatech.edu" "https://www.cs.gatech.edu" "<p>no headings here</p>"
      rfl rfl rfl).2 rfl
     (fun _ => (by decide :
       htmlLooksLikeResearch "<p>no headings here</p>" = false))⟩

/-- Insertion keeps exactly the elements of the input plus the new one. -/
theorem insertDesc_mem (x : String × Nat) :
    ∀ (l : List (String × Nat)) (a : String × Nat),
      a ∈ insertDesc x l ↔ a = x ∨ a ∈ l := by
  intro l
  induction l with
  | nil => intro a; simp [insertDesc]
  | cons y ys ih =>
    intro a
    unfold insertDesc
    by_cases hc : y.2 ≤ x.2
    · rw [if_pos hc]
      exact List.mem_cons
    · rw [if_neg hc]
      simp only [List.mem_cons, ih a]
      tauto

/-- Insertion preserves the non-increasing-score ordering. -/
theorem insertDesc_sorted (x : String × Nat) :
    ∀ l : List (String × Nat),
      l.Pairwise (fun a b => b.2 ≤ a.2) →
      (insertDesc x l).Pairwise (fun a b => b.2 ≤ a.2) := by
  intro l
  induction l with
  | nil => intro _; simp [insertDesc]
  | cons y ys ih =>
    intro hp
    rw [List.pairwise_cons] at hp
    unfold insertDesc
    by_cases hc : y.2 ≤ x.2
    · rw [if_pos hc]
      rw [List.pairwise_cons]
      refine ⟨?_, List.pairwise_cons.mpr hp⟩
      intro b hb
      rcases List.mem_cons.mp hb with rfl | hb'
      · exact hc
      · exact Nat.le_trans (hp.1 b hb') hc
    · rw [if_neg hc]
      rw [List.pairwise_cons]
      refine ⟨?_, ih hp.2⟩
      intro b hb
      rcases (insertDesc_mem x ys b).mp hb with rfl | hb'
      · exact Nat.le_of_lt (Nat.lt_of_not_le hc)
      · exact hp.1 b hb'

/-- The stable sort is a permutation-free reordering: same members. -/
theorem sortDesc_mem :
    ∀ (l : List (String × Nat)) (a : String × Nat), a ∈ sortDesc l ↔ a ∈ l := by
  intro l
  induction l with
  | nil => intro a; simp [sortDesc]
  | cons x xs ih =>
    intro a
    unfold sortDesc
    rw [insertDesc_mem, ih, List.mem_cons]

/-- The stable sort produces a non-increasing score sequence. -/
theorem sortDesc_sorted :
    ∀ l : List (String × Nat), (sortDesc l).Pairwise (fun a b => b.2 ≤ a.2) := by
  intro l
  induction l with
  | nil => simp [sortDesc]
  | cons x xs ih =>
    unfold sortDesc
    exact insertDesc_sorted x _ ih

/-- Accumulating a score touches only the given key. -/
theorem addScore_mem (k : String) (v : Nat) :
    ∀ (m : List (String × Nat)) (x : String × Nat),
      x ∈ addScore m k v → x.1 = k ∨ x ∈ m := by
  intro m
  induction m with
  | nil => intro x hx; simp [addScore] at hx; simp [hx]
  | cons y ys ih =>
    intro x hx
    unfold addScore at hx
    by_cases hk : y.1 = k
    · rw [if_pos hk] at hx
      rcases List.mem_cons.mp hx with rfl | hx'
      · exact Or.inl hk
      · exact Or.inr (List.mem_cons_of_mem _ hx')
    · rw [if_neg hk] at hx
      rcases List.mem_cons.mp hx with rfl | hx'
      · exact Or.inr (List.mem_cons_self _ _)
      · rcases ih x hx' with h | h
        · exact Or.inl h
        · exact Or.inr (List.mem_cons_of_mem _ h)

/-- Accumulating a score keeps the dictionary keys pairwise distinct. -/
theorem addScore_keys_nodup (k : String) (v : Nat) :
    ∀ m : List (String × Nat),
      (m.map Prod.fst).Nodup → ((addScore m k v).map Prod.fst).Nodup := by
  intro m
  induction m with
  | nil => intro _; simp [addScore]
  | cons y ys ih =>
    intro hn
    simp only [List.map_cons, List.nodup_cons] at hn
    unfold addScore
    by_cases hk : y.1 = k
    · rw [if_pos hk]
      simp only [List.map_cons, List.nodup_cons]
      exact hn
    · rw [if_neg hk]
      simp only [List.map_cons, List.nodup_cons]
      refine ⟨?_, ih hn.2⟩
      intro hmem
      obtain ⟨x, hx, hxe⟩ := List.mem_map.mp hmem
      rcases addScore_mem k v ys x hx with h | h
      · exact hk (by rw [← hxe, h])
      · exact hn.1 (by rw [← hxe]; exact List.mem_map_of_mem _ h)

/-- Every entry of the score dictionary satisfies the same-host and
depth filters of `score_links`. -/
theorem scoreTable_filters (baseUrl : String) :
    ∀ (anchors : List LinkAnchor) (m : List (String × Nat)),
      (∀ x ∈ m, netlocOf x.1 = netlocOf baseUrl ∧ pathDepth (urlpathOf x.1) ≤ 3) →
      ∀ x ∈ anchors.foldl (scoreStep baseUrl) m,
        netlocOf x.1 = netlocOf baseUrl ∧ pathDepth (urlpathOf x.1) ≤ 3 := by
  intro anchors
  induction anchors with
  | nil => intro m hm x hx; exact hm x hx
  | cons a rest ih =>
    intro m hm x hx
    refine ih (scoreStep baseUrl m a) ?_ x hx
    intro y hy
    unfold scoreStep at hy
    by_cases h1 : netlocOf (urljoin baseUrl (sTrim a.href)) ≠ netlocOf baseUrl
    · rw [if_pos h1] at hy
      exact hm y hy
    · rw [if_neg h1] at hy
      by_cases h2 : 3 < pathDepth (urlpathOf (urljoin baseUrl (sTrim a.href)))
      · rw [if_pos h2] at hy
        exact hm y hy
      · rw [if_neg h2] at hy
        dsimp only at hy
        rcases addScore_mem _ _ m y hy with h | h
        · rw [h]
          exact ⟨Decidable.not_not.mp h1, Nat.le_of_not_lt h2⟩
        · exact hm y h

/-- The score dictionary has pairwise-distinct keys. -/
theorem scoreTable_keys_nodup (baseUrl : String) :
    ∀ (anchors : List LinkAnchor) (m : List (String × Nat)),
      (m.map Prod.fst).Nodup →
      ((anchors.foldl (scoreStep baseUrl) m).map Prod.fst).Nodup := by
  intro anchors
  induction anchors with
  | nil => intro m hm; exact hm
  | cons a rest ih =>
    intro m hm
    refine ih (scoreStep baseUrl m a) ?_
    unfold scoreStep
    by_cases h1 : netlocOf (urljoin baseUrl (sTrim a.href)) ≠ netlocOf baseUrl
    · rw [if_pos h1]
      exact hm
    · rw [if_neg h1]
      by_cases h2 : 3 < pathDepth (urlpathOf (urljoin baseUrl (sTrim a.href)))
      · rw [if_pos h2]
        exact hm
      · rw [if_neg h2]
        exact addScore_keys_nodup _ _ m hm

/-- With pairwise-distinct keys, `d.get` recovers a member's value. -/
theorem assocGet_of_mem_nodup :
    ∀ (m : List (String × Nat)) (k : String) (v : Nat),
      (m.map Prod.fst).Nodup → (k, v) ∈ m → assocGet m k 0 = v := by
  intro m
  induction m with
  | nil => intro k v _ hm; simp at hm
  | cons y ys ih =>
    intro k v hn hm
    simp only [List.map_cons, List.nodup_cons] at hn
    unfold assocGet
    by_cases hk : y.1 = k
    · rw [if_pos hk]
      rcases List.mem_cons.mp hm with h | h
      · subst h
        rfl
      · exact absurd (by rw [hk]; exact List.mem_map_of_mem _ h) hn.1
    · rw [if_neg hk]
      rcases List.mem_cons.mp hm with h | h
      · subst h
        exact absurd rfl hk
      · exact ih k v hn.2 h

/-- C10: `score_links` returns at most `top_n` URLs, every returned URL
shares the base URL's network host and has path depth at most 3, and the
returned URLs are ordered by non-increasing final score. -/
theorem c10_score_links (baseUrl : String) (anchors : List LinkAnchor)
    (topN : Nat) :
    (scoreLinks baseUrl anchors topN).length ≤ topN ∧
    (∀ u ∈ scoreLinks baseUrl anchors topN,
      netlocOf u = netlocOf baseUrl ∧ pathDepth (urlpathOf u) ≤ 3) ∧
    (scoreLinks baseUrl anchors topN).Pairwise
      (fun u v => assocGet (scoreTable baseUrl anchors) v 0 ≤
                  assocGet (scoreTable baseUrl anchors) u 0) := by
  have hmemTable : ∀ x ∈ (sortDesc (scoreTable baseUrl anchors)).take topN,
      x ∈ scoreTable baseUrl anchors := by
    intro x hx
    exact (sortDesc_mem _ x).mp (List.mem_of_mem_take hx)
  have hnodup : ((scoreTable baseUrl anchors).map Prod.fst).Nodup :=
    scoreTable_keys_nodup baseUrl anchors [] (by simp)
  refine ⟨?_, ?_, ?_⟩
  · unfold scoreLinks
    rw [List.length_map]
    exact List.length_take_le _ _
  · intro u hu
    obtain ⟨x, hx, hxe⟩ := List.mem_map.mp hu
    have hxt := hmemTable x hx
    have := scoreTable_filters baseUrl anchors [] (by simp) x hxt
    rw [← hxe]
    exact this
  · unfold scoreLinks
    rw [List.pairwise_map]
    have hs : ((sortDesc (scoreTable baseUrl anchors)).take topN).Pairwise
        (fun a b => b.2 ≤ a.2) :=
      (sortDesc_sorted _).sublist (List.take_sublist _ _)
    refine hs.imp_of_mem ?_
    intro a b ha hb hab
    have hga : assocGet (scoreTable baseUrl anchors) a.1 0 = a.2 :=
      assocGet_of_mem_nodup _ a.1 a.2 hnodup (hmemTable a ha)
    have hgb : assocGet (scoreTable baseUrl anchors) b.1 0 = b.2 :=
      assocGet_of_mem_nodup _ b.1 b.2 hnodup (hmemTable b hb)
    rw [hga, hgb]
    exact hab

/-- Witness for C10: the per-URL clause at a concrete page with two
same-host anchors. -/
theorem c10_score_links_witness :
    netlocOf "https://x.edu/research" = netlocOf "https://x.edu/" ∧
    pathDepth (urlpathOf "https://x.edu/research") ≤ 3 :=
  (c10_score_links "https://x.edu/"
      [⟨"Research", "/research"⟩, ⟨"Home", "/"⟩] 5).2.1
    "https://x.edu/research" (by decide)

end GradMate
